import Mathlib

/-!
Shallow embedding of the computation core of `grade_calculator_app.py`
(a grade calculator: weight interpretation, category averaging with
drop-lowest, course aggregation, required-final-score solving, and
what-if scenario projection).  Python floats are modelled as exact
rationals; Python `None` becomes `Option.none`.
-/

namespace GradeCalc

/-- Python `str.strip()` on a string modelled as a character list:
whitespace is removed from both ends. -/
def pyStrip (s : List Char) : List Char :=
  ((s.dropWhile Char.isWhitespace).reverse.dropWhile Char.isWhitespace).reverse

/-- Python `str.lower()` on a string modelled as a character list. -/
def pyLower (s : List Char) : List Char := s.map Char.toLower

/-- `interpret_weight(value, unit)`: percent values are divided by 100,
decimal values pass through unchanged. -/
def interpret_weight (value : ℚ) (unit : String) : ℚ :=
  if unit == "Percent" then value / 100 else value

/-- `avg_with_drops(scores, drop_n)`: average a list of scores after
dropping the lowest `drop_n`.  Mirrors the Python body: empty input
gives `None`; otherwise the list is sorted ascending, the drop count is
clamped to `[0, len]`, the prefix is discarded, and the remainder is
averaged, with `None` when nothing remains. -/
def avg_with_drops (scores : List ℚ) (drop_n : ℤ) : Option ℚ :=
  if scores.isEmpty then none
  else
    let s := List.insertionSort (fun a b => a ≤ b) scores
    let d := (min (max drop_n 0) (s.length : ℤ)).toNat
    let kept := s.drop d
    if kept.isEmpty then none
    else some (kept.sum / (kept.length : ℚ))

/-- A grading category as the Python dict `{name, weight, scores, drop_n}`.
Names are Python strings, modelled as character lists. -/
structure Category where
  name : List Char
  weight : ℚ
  scores : List ℚ
  drop_n : ℤ

/-- The name comparison used to recognize the final-exam category:
trimmed, lower-cased equality, as in
`c["name"].strip().lower() == final_name.strip().lower()`. -/
def isFinalMatch (final_name : List Char) (c : Category) : Bool :=
  pyLower (pyStrip c.name) == pyLower (pyStrip final_name)

/-- One iteration of the loop body of `compute_current_and_final`:
a matching category overwrites the final weight and sets the found
flag; a non-matching category adds `(avg/100) * weight * 100` to the
running current total when its average exists. -/
def aggStep (final_name : List Char) (acc : ℚ × ℚ × Bool) (c : Category) :
    ℚ × ℚ × Bool :=
  if isFinalMatch final_name c then
    (acc.1, c.weight, true)
  else
    match avg_with_drops c.scores c.drop_n with
    | some avg => (acc.1 + (avg / 100) * c.weight * 100, acc.2.1, acc.2.2)
    | none => acc

/-- `compute_current_and_final(categories, final_name)`: returns
`(current, final_weight, final_found)` by folding the loop body over
the category list starting from `(0.0, 0.0, False)`. -/
def compute_current_and_final (categories : List Category)
    (final_name : List Char) : ℚ × ℚ × Bool :=
  categories.foldl (aggStep final_name) (0, 0, false)

/-- `required_final_score(current, final_weight, target)`: `None` when
`final_weight <= 0`, otherwise `(target - current) / final_weight`. -/
def required_final_score (current final_weight target : ℚ) : Option ℚ :=
  if final_weight ≤ 0 then none
  else some ((target - current) / final_weight)

/-- `scenarios_table(current, final_w)`: the fixed label list
`[50, 60, 70, 80, 90, 100]` together with
`current + final_w * f` for each label `f`. -/
def scenarios_table (current final_w : ℚ) : List ℚ × List ℚ :=
  let labels : List ℚ := [50, 60, 70, 80, 90, 100]
  (labels, labels.map (fun f => current + final_w * f))

/-- The module-level weight normalization (lines 184-190): if the total
weight is positive and differs from 1 by more than `1e-2`, each weight
is divided by the total; otherwise the weights are left unchanged. -/
def normalize_weights (ws : List ℚ) : List ℚ :=
  let total := ws.sum
  if 0 < total ∧ |total - 1| > 1/100 then ws.map (fun w => w / total)
  else ws

/-- The contribution of a single non-final category to the current
grade: `(avg/100) * weight * 100` when the average exists, else 0. -/
def contribution (c : Category) : ℚ :=
  match avg_with_drops c.scores c.drop_n with
  | some avg => (avg / 100) * c.weight * 100
  | none => 0

/-- C1: for every current grade, every final weight `w > 0`, and every
target, the solver returns a value `r` with `current + w * r = target`
(the round-trip equation of the weighted-sum model). -/
theorem required_final_score_roundtrip (current w target : ℚ)
    (h : 0 < w) :
    ∃ r, required_final_score current w target = some r ∧
      current + w * r = target := by
  refine ⟨(target - current) / w, ?_, ?_⟩
  · simp [required_final_score, not_le.mpr h]
  · have hw : w ≠ 0 := h.ne'
    field_simp

/-- Witness for C1 at `current = 50`, `w = 1/2`, `target = 90`. -/
theorem required_final_score_roundtrip_witness :
    ∃ r, required_final_score 50 (1/2) 90 = some r ∧
      50 + (1/2) * r = 90 :=
  required_final_score_roundtrip 50 (1/2) 90 (by norm_num)

/-- C2: `required_final_score` returns `none` exactly when the final
weight is `≤ 0`, and otherwise returns `(target - current) / w`. -/
theorem required_final_score_cases (current w target : ℚ) :
    (required_final_score current w target = none ↔ w ≤ 0) ∧
    (0 < w → required_final_score current w target =
      some ((target - current) / w)) := by
  refine ⟨⟨fun h => ?_, fun h => ?_⟩, fun h => ?_⟩
  · by_contra hw
    simp [required_final_score, hw] at h
  · simp [required_final_score, h]
  · simp [required_final_score, not_le.mpr h]

/-- Witness for C2: `w = 0` gives `none`; a positive weight gives the
quotient. -/
theorem required_final_score_cases_witness :
    required_final_score 10 0 90 = none ∧
    required_final_score 50 (1/2) 90 = some ((90 - 50) / (1/2)) :=
  ⟨(required_final_score_cases 10 0 90).1.mpr (by norm_num),
   (required_final_score_cases 50 (1/2) 90).2 (by norm_num)⟩

/-- C6: `avg_with_drops` returns `none` exactly when the score list is
empty or the drop count is at least the list length; being a total
function of the embedding, it never raises or divides by zero. -/
theorem avg_with_drops_none_iff (scores : List ℚ) (d : ℤ) :
    avg_with_drops scores d = none ↔
      scores = [] ∨ (scores.length : ℤ) ≤ d := by
  rcases eq_or_ne scores [] with rfl | hne
  · simp [avg_with_drops]
  · have hn : 0 < scores.length := List.length_pos.mpr hne
    rw [avg_with_drops, if_neg (by simp [hne])]
    have hlen : (List.insertionSort (fun a b => a ≤ b) scores).length
        = scores.length := List.length_insertionSort _ _
    by_cases hk : ((List.insertionSort (fun a b => a ≤ b) scores).drop
        (min (max d 0) ((List.insertionSort (fun a b => a ≤ b)
          scores).length : ℤ)).toNat).isEmpty
    · rw [if_pos hk]
      rw [List.isEmpty_iff_length_eq_zero, List.length_drop, hlen] at hk
      simp only [eq_self_iff_true, true_iff]
      exact Or.inr (by omega)
    · rw [if_neg hk]
      rw [List.isEmpty_iff_length_eq_zero, List.length_drop, hlen] at hk
      simp only [Option.some_ne_none, false_iff]
      push_neg
      refine ⟨hne, ?_⟩
      omega

/-- C8: `scenarios_table` returns the fixed labels
`[50, 60, 70, 80, 90, 100]` and, in order, `current + w * f` for each
label `f`; in particular `current = 50`, `w = 1/2` yields
`[75, 80, 85, 90, 95, 100]`. -/
theorem scenarios_table_eval (current w : ℚ) :
    scenarios_table current w =
      ([50, 60, 70, 80, 90, 100],
        [current + w * 50, current + w * 60, current + w * 70,
         current + w * 80, current + w * 90, current + w * 100]) ∧
    scenarios_table 50 (1/2) =
      ([50, 60, 70, 80, 90, 100], [75, 80, 85, 90, 95, 100]) := by
  constructor
  · simp [scenarios_table]
  · norm_num [scenarios_table]

/-- C5 counterexample: at `scores = [50]`, `d = 1` the drop count is in
the claimed range `0 ≤ d ≤ length`, but the function returns `none`
rather than the arithmetic mean of the (empty) remainder. -/
theorem avg_with_drops_full_drop_cex :
    ((0 : ℤ) ≤ 1 ∧ (1 : ℤ) ≤ ([(50 : ℚ)].length : ℤ)) ∧
    avg_with_drops [(50 : ℚ)] 1 = none := by
  norm_num [avg_with_drops, List.insertionSort, List.orderedInsert]

/-- C5 (amended to `0 ≤ d < length`): for a non-empty score list and a
drop count strictly below the length, the result is the arithmetic mean
of the sorted list with the `d` lowest scores removed; and with a drop
count of 0 the result is the plain mean of the scores. -/
theorem avg_with_drops_some_eq_mean (scores : List ℚ) (d : ℤ)
    (hne : scores ≠ []) (h0 : 0 ≤ d) (hd : d < (scores.length : ℤ)) :
    avg_with_drops scores d =
      some ((((List.insertionSort (fun a b => a ≤ b) scores).drop
          d.toNat).sum) /
        (((List.insertionSort (fun a b => a ≤ b) scores).drop
          d.toNat).length : ℚ)) ∧
    avg_with_drops scores 0 =
      some (scores.sum / (scores.length : ℚ)) := by
  have hlen : (List.insertionSort (fun a b => a ≤ b) scores).length
      = scores.length := List.length_insertionSort _ _
  have hn : 0 < scores.length := List.length_pos.mpr hne
  constructor
  · rw [avg_with_drops, if_neg (by simp [hne])]
    simp only
    rw [hlen]
    have hmin : min (max d 0) ((scores.length : ℤ)) = d := by omega
    rw [hmin]
    rw [if_neg (by
      simp only [List.isEmpty_iff_length_eq_zero, List.length_drop, hlen]
      omega)]
  · rw [avg_with_drops, if_neg (by simp [hne])]
    simp only
    rw [hlen]
    have hmin : min (max (0 : ℤ) 0) ((scores.length : ℤ)) = 0 := by omega
    rw [hmin]
    rw [if_neg (by
      simp only [List.isEmpty_iff_length_eq_zero, List.length_drop, hlen]
      omega)]
    have hsum : (List.insertionSort (fun a b => a ≤ b) scores).sum
        = scores.sum := (List.perm_insertionSort _ scores).sum_eq
    simp [hsum, hlen]

/-- Witness for C5 at `scores = [80, 90, 100]`, `d = 1`: the result is
`95`, and with no drops it is the plain mean `90`. -/
theorem avg_with_drops_some_eq_mean_witness :
    avg_with_drops [(80 : ℚ), 90, 100] 1 =
      some ((((List.insertionSort (fun a b => a ≤ b)
          [(80 : ℚ), 90, 100]).drop (1 : ℤ).toNat).sum) /
        (((List.insertionSort (fun a b => a ≤ b)
          [(80 : ℚ), 90, 100]).drop (1 : ℤ).toNat).length : ℚ)) ∧
    avg_with_drops [(80 : ℚ), 90, 100] 0 =
      some (([(80 : ℚ), 90, 100].sum) / (([(80 : ℚ), 90, 100].length : ℚ))) :=
  avg_with_drops_some_eq_mean [(80 : ℚ), 90, 100] 1
    (by simp) (by norm_num) (by norm_num)

/-- C7: `avg_with_drops` is invariant under permutation of the score
list, including the `none` cases. -/
theorem avg_with_drops_perm_invariant (s t : List ℚ) (d : ℤ)
    (h : s.Perm t) :
    avg_with_drops s d = avg_with_drops t d := by
  have hsort : List.insertionSort (fun a b => a ≤ b) s
      = List.insertionSort (fun a b => a ≤ b) t :=
    List.eq_of_perm_of_sorted
      ((List.perm_insertionSort _ s).trans
        (h.trans (List.perm_insertionSort _ t).symm))
      (List.sorted_insertionSort _ s) (List.sorted_insertionSort _ t)
  have hempty : s.isEmpty = t.isEmpty := by
    cases s with
    | nil => rw [← h.nil_eq]
    | cons a s2 =>
      cases t with
      | nil => exact (List.cons_ne_nil a s2 h.eq_nil).elim
      | cons b t2 => rfl
  rw [avg_with_drops, avg_with_drops, hsort, hempty]

/-- Witness for C7 at `s = [1, 2]`, `t = [2, 1]`, `d = 0`. -/
theorem avg_with_drops_perm_invariant_witness :
    avg_with_drops [(1 : ℚ), 2] 0 = avg_with_drops [(2 : ℚ), 1] 0 :=
  avg_with_drops_perm_invariant [(1 : ℚ), 2] [(2 : ℚ), 1] 0
    (List.Perm.swap 2 1 [])

/-- C10: a negative drop count is clamped to zero, so the result agrees
with a drop count of zero. -/
theorem avg_with_drops_neg_clamped (scores : List ℚ) (d : ℤ)
    (h : d < 0) :
    avg_with_drops scores d = avg_with_drops scores 0 := by
  simp only [avg_with_drops, max_eq_right h.le, max_self]

/-- Witness for C10 at `scores = [50]`, `d = -3`. -/
theorem avg_with_drops_neg_clamped_witness :
    avg_with_drops [(50 : ℚ)] (-3) = avg_with_drops [(50 : ℚ)] 0 :=
  avg_with_drops_neg_clamped [(50 : ℚ)] (-3) (by norm_num)

/-- One non-matching loop step adds exactly the category's
`contribution` to the running current total. -/
theorem aggStep_no_match (fn : List Char) (cur fw : ℚ) (fd : Bool)
    (c : Category) (hc : isFinalMatch fn c = false) :
    aggStep fn (cur, fw, fd) c = (cur + contribution c, fw, fd) := by
  rw [aggStep, if_neg (by simp [hc])]
  rw [contribution]
  cases havg : avg_with_drops c.scores c.drop_n <;> simp [havg]

/-- Closed form of the aggregation loop from an arbitrary accumulator:
the current total grows by the contributions of the non-matching
categories, the final weight is the last matching weight (defaulting to
the incoming one), and the found flag records whether any category
matched. -/
theorem aggStep_foldl (fn : List Char) (cats : List Category)
    (cur fw : ℚ) (fd : Bool) :
    cats.foldl (aggStep fn) (cur, fw, fd) =
      (cur + ((cats.filter
          (fun c => !(isFinalMatch fn c))).map contribution).sum,
       ((cats.filter (isFinalMatch fn)).map Category.weight).getLastD fw,
       fd || cats.any (isFinalMatch fn)) := by
  induction cats generalizing cur fw fd with
  | nil => simp
  | cons c cs ih =>
    by_cases hc : isFinalMatch fn c
    · rw [List.foldl_cons]
      have hstep : aggStep fn (cur, fw, fd) c = (cur, c.weight, true) := by
        rw [aggStep, if_pos hc]
      rw [hstep, ih]
      simp only [List.filter_cons, hc, Bool.not_true, if_true, if_false,
        ite_true, ite_false, List.map_cons, List.getLastD_cons,
        List.any_cons, Bool.true_or, Bool.or_true]
      simp
    · rw [List.foldl_cons,
        aggStep_no_match fn cur fw fd c (Bool.eq_false_iff.mpr hc), ih]
      simp [hc, add_assoc]

/-- C3: `compute_current_and_final` returns the sum of the
contributions `(avg/100) * weight * 100` of the non-matching categories
(zero for categories with no computable average), the weight of the
last category whose trimmed lower-cased name equals the trimmed
lower-cased final name (0 when none matches, and matching categories
never contribute to the sum even if they have scores), and a flag that
is true exactly when some category matches. -/
theorem compute_current_and_final_spec (cats : List Category)
    (fn : List Char) :
    compute_current_and_final cats fn =
      (((cats.filter (fun c => !(isFinalMatch fn c))).map
          contribution).sum,
       ((cats.filter (isFinalMatch fn)).map Category.weight).getLastD 0,
       cats.any (isFinalMatch fn)) := by
  rw [compute_current_and_final, aggStep_foldl]
  simp

/-- C9: with at least two matching categories, the reported final
weight is that of the last matching category (later matches overwrite
earlier ones), the found flag is true, and every matching category is
excluded from the current-grade sum. -/
theorem compute_last_match_wins (cats : List Category) (fn : List Char)
    (c : Category)
    (h2 : 2 ≤ (cats.filter (isFinalMatch fn)).length)
    (hlast : (cats.filter (isFinalMatch fn)).getLast? = some c) :
    compute_current_and_final cats fn =
      (((cats.filter (fun x => !(isFinalMatch fn x))).map
          contribution).sum,
       c.weight, true) := by
  rw [compute_current_and_final, aggStep_foldl]
  have hne : cats.filter (isFinalMatch fn) ≠ [] := by
    intro h
    rw [h] at h2
    simp at h2
  obtain ⟨x, hx⟩ := List.exists_mem_of_ne_nil _ hne
  have hmem := List.mem_filter.mp hx
  have hany : cats.any (isFinalMatch fn) = true :=
    List.any_eq_true.mpr ⟨x, hmem.1, hmem.2⟩
  have hweight : ((cats.filter (isFinalMatch fn)).map
      Category.weight).getLastD 0 = c.weight := by
    rw [List.getLastD_eq_getLast?, List.getLast?_map, hlast]
    rfl
  rw [hweight, hany]
  simp

/-- A pair of categories that both match the final name
`"final exam"`, used to witness C9. -/
def catHomework : Category :=
  ⟨"Final Exam".toList, 1, [(10 : ℚ)], 0⟩

/-- The second matching category (later in input order). -/
def catFinal : Category :=
  ⟨" FINAL EXAM ".toList, 2, [], 0⟩

/-- Witness for C9: two categories both matching `"final exam"`; the
second one's weight is reported. -/
theorem compute_last_match_wins_witness :
    compute_current_and_final [catHomework, catFinal]
        "final exam".toList =
      ((([catHomework, catFinal].filter
          (fun x => !(isFinalMatch "final exam".toList x))).map
          contribution).sum,
       catFinal.weight, true) :=
  compute_last_match_wins [catHomework, catFinal] "final exam".toList
    catFinal (by decide) (by rfl)

/-- Sum of a list divided elementwise equals the divided sum. -/
theorem sum_map_div (l : List ℚ) (t : ℚ) :
    (l.map (fun w => w / t)).sum = l.sum / t := by
  induction l with
  | nil => simp
  | cons a m ih => simp [ih, add_div]

/-- C4 counterexample: at `ws = [0]` the total is 0, which is not
within 0.01 of 1, yet the code leaves the weights unchanged and their
sum stays 0, not 1 (the claim omits the positivity guard on the
total). -/
theorem normalize_weights_zero_total_cex :
    |(([(0 : ℚ)]).sum) - 1| > 1/100 ∧
    normalize_weights [(0 : ℚ)] = [(0 : ℚ)] ∧
    (normalize_weights [(0 : ℚ)]).sum ≠ 1 := by
  norm_num [normalize_weights]

/-- C4 (amended with the positivity guard): weights are left unchanged
unless the total is positive and differs from 1 by more than 0.01, in
which case each weight is divided by the total and the results sum
to 1. -/
theorem normalize_weights_spec (ws : List ℚ) :
    (¬(0 < ws.sum ∧ |ws.sum - 1| > 1/100) →
      normalize_weights ws = ws) ∧
    (0 < ws.sum → |ws.sum - 1| > 1/100 →
      normalize_weights ws = ws.map (fun w => w / ws.sum) ∧
      (normalize_weights ws).sum = 1) := by
  constructor
  · intro h
    rw [normalize_weights, if_neg h]
  · intro h1 h2
    have hmap : normalize_weights ws = ws.map (fun w => w / ws.sum) := by
      rw [normalize_weights, if_pos ⟨h1, h2⟩]
    refine ⟨hmap, ?_⟩
    rw [hmap, sum_map_div, div_self h1.ne']

/-- Witness for C4 at `ws = [2]`: the total 2 is positive and off by
more than 0.01, the list becomes `[1]`, and the new sum is 1. -/
theorem normalize_weights_spec_witness :
    normalize_weights [(2 : ℚ)] = [(2 : ℚ)].map (fun w => w / 2) ∧
    (normalize_weights [(2 : ℚ)]).sum = 1 := by
  have h := (normalize_weights_spec [(2 : ℚ)]).2 (by norm_num)
    (by norm_num)
  simpa using h

end GradeCalc
